import Mathlib

/-!
Verification of the passivbot optimizer core (`src/optimize.py`).

Numeric values manipulated by the Python code (floats) are modelled as
exact rationals (`ℚ`).  Python dictionaries appearing as data (analysis
records, config limits) are modelled as total lookup functions or as
association lists, as noted at each definition.
-/

set_option autoImplicit false

namespace Passivbot

/-! ### Fitness evaluator (`Evaluator.calc_fitness`)

`analysis` and the `config["optimize"]["limits"]` sub-dictionary are modelled
as total functions from the string key to the stored rational value
(the Python code indexes both dictionaries with keys that are present).
The two entries of `config["optimize"]["scoring"]` are a pair of keys. -/

/-- The fixed priority-ordered list of constrained statistics together with
their power-of-ten weights, exactly the list literal iterated in
`Evaluator.calc_fitness`. -/
def constraintKeys : List (Nat × String) :=
  [(4, "drawdown_worst"), (3, "equity_balance_diff_mean"), (2, "loss_profit_ratio")]

/-- The constraint-violation modifier accumulated by the `for` loop of
`Evaluator.calc_fitness`: starting from `0.0`, for each `(i, key)` add
`(max(limits["lower_bound_" + key], analysis[key]) - limits["lower_bound_" + key]) * 10 ** i`. -/
def calcModifier (limits : String → ℚ) (analysis : String → ℚ) : ℚ :=
  constraintKeys.foldl
    (fun modifier p =>
      modifier +
        (max (limits ("lower_bound_" ++ p.2)) (analysis p.2) -
          limits ("lower_bound_" ++ p.2)) * 10 ^ p.1)
    0

/-- `Evaluator.calc_fitness`: computes the modifier, then either disqualifies
(`drawdown_worst >= 1.0 or equity_balance_diff_max < 0.1`) returning the
modifier for both scores, or subtracts the two configured scoring metrics. -/
def calc_fitness (limits : String → ℚ) (scoring : String × String)
    (analysis : String → ℚ) : ℚ × ℚ :=
  let modifier := calcModifier limits analysis
  if 1 ≤ analysis "drawdown_worst" ∨ analysis "equity_balance_diff_max" < 1/10 then
    (modifier, modifier)
  else
    (modifier - analysis scoring.1, modifier - analysis scoring.2)

/-- The analysis keys that the modifier and the disqualification test read. -/
def constraintAnalysisKeys : List String :=
  ["drawdown_worst", "equity_balance_diff_mean", "loss_profit_ratio",
   "equity_balance_diff_max"]

theorem calcModifier_eq (limits analysis : String → ℚ) :
    calcModifier limits analysis =
      (max (limits "lower_bound_drawdown_worst") (analysis "drawdown_worst") -
        limits "lower_bound_drawdown_worst") * 10 ^ 4 +
      (max (limits "lower_bound_equity_balance_diff_mean")
          (analysis "equity_balance_diff_mean") -
        limits "lower_bound_equity_balance_diff_mean") * 10 ^ 3 +
      (max (limits "lower_bound_loss_profit_ratio") (analysis "loss_profit_ratio") -
        limits "lower_bound_loss_profit_ratio") * 10 ^ 2 := by
  simp [calcModifier, constraintKeys]

theorem calcModifier_congr (limits a1 a2 : String → ℚ)
    (h : ∀ k ∈ constraintAnalysisKeys, a2 k = a1 k) :
    calcModifier limits a2 = calcModifier limits a1 := by
  have h1 : a2 "drawdown_worst" = a1 "drawdown_worst" :=
    h _ (by simp [constraintAnalysisKeys])
  have h2 : a2 "equity_balance_diff_mean" = a1 "equity_balance_diff_mean" :=
    h _ (by simp [constraintAnalysisKeys])
  have h3 : a2 "loss_profit_ratio" = a1 "loss_profit_ratio" :=
    h _ (by simp [constraintAnalysisKeys])
  rw [calcModifier_eq, calcModifier_eq, h1, h2, h3]

/-- C1: if worst drawdown is ≥ 1.0 or maximum equity/balance divergence is
below 0.1, `calc_fitness` returns both scores equal to the constraint
modifier alone, independent of the values stored under any key other than
the four constraint/threshold statistics (in particular independent of the
two configured objective metrics); otherwise each returned score equals the
modifier minus the actual value of its configured objective metric. -/
theorem calc_fitness_disqualification_and_objective_branches
    (limits : String → ℚ) (scoring : String × String) (analysis : String → ℚ) :
    ((1 ≤ analysis "drawdown_worst" ∨ analysis "equity_balance_diff_max" < 1/10) →
      calc_fitness limits scoring analysis =
        (calcModifier limits analysis, calcModifier limits analysis) ∧
      ∀ analysis2 : String → ℚ,
        (∀ k ∈ constraintAnalysisKeys, analysis2 k = analysis k) →
        calc_fitness limits scoring analysis2 =
          calc_fitness limits scoring analysis) ∧
    (¬(1 ≤ analysis "drawdown_worst" ∨ analysis "equity_balance_diff_max" < 1/10) →
      calc_fitness limits scoring analysis =
        (calcModifier limits analysis - analysis scoring.1,
         calcModifier limits analysis - analysis scoring.2)) := by
  constructor
  · intro h
    refine ⟨by simp only [calc_fitness, if_pos h], ?_⟩
    intro analysis2 hagree
    have h1 : analysis2 "drawdown_worst" = analysis "drawdown_worst" :=
      hagree _ (by simp [constraintAnalysisKeys])
    have h4 : analysis2 "equity_balance_diff_max" = analysis "equity_balance_diff_max" :=
      hagree _ (by simp [constraintAnalysisKeys])
    have hmod : calcModifier limits analysis2 = calcModifier limits analysis :=
      calcModifier_congr limits analysis analysis2 hagree
    have h2 : (1 ≤ analysis2 "drawdown_worst" ∨
        analysis2 "equity_balance_diff_max" < 1/10) := by
      rw [h1, h4]; exact h
    simp only [calc_fitness, if_pos h, if_pos h2, hmod]
  · intro h
    simp only [calc_fitness, if_neg h]

/-- Example constraint lower bounds: all zero. -/
def limitsZero : String → ℚ := fun _ => 0

/-- Example statistics record that is disqualified (worst drawdown 2 ≥ 1). -/
def analysisDq : String → ℚ := fun k => if k = "drawdown_worst" then 2 else 5

/-- Example statistics record that is not disqualified. -/
def analysisOk : String → ℚ := fun k => if k = "drawdown_worst" then 0 else 5

theorem calc_fitness_disqualification_and_objective_branches_witness :
    calc_fitness limitsZero ("adg", "sharpe_ratio") analysisDq =
      (calcModifier limitsZero analysisDq, calcModifier limitsZero analysisDq) ∧
    calc_fitness limitsZero ("adg", "sharpe_ratio") analysisOk =
      (calcModifier limitsZero analysisOk - analysisOk "adg",
       calcModifier limitsZero analysisOk - analysisOk "sharpe_ratio") := by
  constructor
  · exact ((calc_fitness_disqualification_and_objective_branches limitsZero
      ("adg", "sharpe_ratio") analysisDq).1 (by simp only [analysisDq, String.reduceEq, reduceIte]; norm_num)).1
  · exact (calc_fitness_disqualification_and_objective_branches limitsZero
      ("adg", "sharpe_ratio") analysisOk).2
      (by simp only [analysisOk, String.reduceEq, reduceIte]; norm_num)

/-- C10: the constraint-violation modifier is always non-negative, it is zero
when no constrained statistic exceeds its lower bound, and both scores of a
disqualified evaluation are non-negative. -/
theorem calcModifier_nonneg_and_zero_when_within_bounds
    (limits : String → ℚ) (scoring : String × String) (analysis : String → ℚ) :
    0 ≤ calcModifier limits analysis ∧
    ((analysis "drawdown_worst" ≤ limits "lower_bound_drawdown_worst" ∧
      analysis "equity_balance_diff_mean" ≤
        limits "lower_bound_equity_balance_diff_mean" ∧
      analysis "loss_profit_ratio" ≤ limits "lower_bound_loss_profit_ratio") →
      calcModifier limits analysis = 0) ∧
    ((1 ≤ analysis "drawdown_worst" ∨ analysis "equity_balance_diff_max" < 1/10) →
      0 ≤ (calc_fitness limits scoring analysis).1 ∧
      0 ≤ (calc_fitness limits scoring analysis).2) := by
  have hnonneg : 0 ≤ calcModifier limits analysis := by
    rw [calcModifier_eq]
    have t1 : limits "lower_bound_drawdown_worst" ≤
        max (limits "lower_bound_drawdown_worst") (analysis "drawdown_worst") :=
      le_max_left _ _
    have t2 : limits "lower_bound_equity_balance_diff_mean" ≤
        max (limits "lower_bound_equity_balance_diff_mean")
          (analysis "equity_balance_diff_mean") := le_max_left _ _
    have t3 : limits "lower_bound_loss_profit_ratio" ≤
        max (limits "lower_bound_loss_profit_ratio") (analysis "loss_profit_ratio") :=
      le_max_left _ _
    nlinarith
  refine ⟨hnonneg, ?_, ?_⟩
  · rintro ⟨hdd, hmean, hlpr⟩
    rw [calcModifier_eq, max_eq_left hdd, max_eq_left hmean, max_eq_left hlpr]
    ring
  · intro h
    simp only [calc_fitness, if_pos h]
    exact ⟨hnonneg, hnonneg⟩

/-- Example statistics record with every constrained statistic at or below
its (zero) lower bound. -/
def analysisWithin : String → ℚ := fun k => if k = "equity_balance_diff_max" then 1 else 0

theorem calcModifier_nonneg_and_zero_when_within_bounds_witness :
    0 ≤ calcModifier limitsZero analysisDq ∧
    calcModifier limitsZero analysisWithin = 0 ∧
    0 ≤ (calc_fitness limitsZero ("adg", "sharpe_ratio") analysisDq).1 := by
  refine ⟨(calcModifier_nonneg_and_zero_when_within_bounds limitsZero
      ("adg", "sharpe_ratio") analysisDq).1,
    (calcModifier_nonneg_and_zero_when_within_bounds limitsZero
      ("adg", "sharpe_ratio") analysisWithin).2.1
      (by simp only [analysisWithin, limitsZero, String.reduceEq, reduceIte]; norm_num),
    ((calcModifier_nonneg_and_zero_when_within_bounds limitsZero
      ("adg", "sharpe_ratio") analysisDq).2.2 (by simp only [analysisDq, String.reduceEq, reduceIte]; norm_num)).1⟩

/-- Statistics record violating only the worst-drawdown constraint, by the
small positive margin 1/1000 (with all lower bounds zero). -/
def analysisDdViol : String → ℚ := fun k => if k = "drawdown_worst" then 1/1000 else 0

/-- Statistics record violating only the loss/profit-ratio constraint, by
margin 1 (with all lower bounds zero). -/
def analysisLprViol : String → ℚ := fun k => if k = "loss_profit_ratio" then 1 else 0

/-- C4 counterexample: with all lower bounds zero, a record violating the
worst-drawdown constraint by the positive margin 1/1000 has modifier 10,
which is strictly SMALLER than the modifier 100 of a record violating only
the loss/profit-ratio constraint (by margin 1), so a higher-priority
violation does not dominate regardless of lower-priority magnitudes. -/
theorem calcModifier_priority_counterexample :
    limitsZero "lower_bound_drawdown_worst" < analysisDdViol "drawdown_worst" ∧
    analysisLprViol "drawdown_worst" ≤ limitsZero "lower_bound_drawdown_worst" ∧
    analysisLprViol "equity_balance_diff_mean" ≤
      limitsZero "lower_bound_equity_balance_diff_mean" ∧
    limitsZero "lower_bound_loss_profit_ratio" < analysisLprViol "loss_profit_ratio" ∧
    calcModifier limitsZero analysisDdViol < calcModifier limitsZero analysisLprViol := by
  refine ⟨?_, ?_, ?_, ?_, ?_⟩ <;>
    first
      | (simp only [limitsZero, analysisDdViol, analysisLprViol,
          String.reduceEq, reduceIte]; norm_num)
      | (rw [calcModifier_eq, calcModifier_eq];
         simp only [limitsZero, analysisDdViol, analysisLprViol,
           String.reduceEq, reduceIte];
         norm_num)

/-- C4 amended: a record whose worst drawdown exceeds its lower bound by at
least a positive margin `m` has a strictly larger modifier than any record
that violates only the loss/profit-ratio constraint, PROVIDED the latter's
violation is below `100 * m` (the ratio of the weights `10^4` and `10^2`);
the counterexample shows the proviso is necessary. -/
theorem calcModifier_priority_ordering (limits a1 a2 : String → ℚ) (m : ℚ)
    (hm : 0 < m)
    (h1 : limits "lower_bound_drawdown_worst" + m ≤ a1 "drawdown_worst")
    (h2dd : a2 "drawdown_worst" ≤ limits "lower_bound_drawdown_worst")
    (h2mean : a2 "equity_balance_diff_mean" ≤
      limits "lower_bound_equity_balance_diff_mean")
    (h2lpr : a2 "loss_profit_ratio" <
      limits "lower_bound_loss_profit_ratio" + 100 * m) :
    calcModifier limits a2 < calcModifier limits a1 := by
  rw [calcModifier_eq, calcModifier_eq,
    max_eq_left h2dd, max_eq_left h2mean]
  have e3 : max (limits "lower_bound_loss_profit_ratio") (a2 "loss_profit_ratio") <
      limits "lower_bound_loss_profit_ratio" + 100 * m :=
    max_lt (by linarith) h2lpr
  have f1 : limits "lower_bound_drawdown_worst" + m ≤
      max (limits "lower_bound_drawdown_worst") (a1 "drawdown_worst") :=
    le_trans h1 (le_max_right _ _)
  have f2 : limits "lower_bound_equity_balance_diff_mean" ≤
      max (limits "lower_bound_equity_balance_diff_mean")
        (a1 "equity_balance_diff_mean") := le_max_left _ _
  have f3 : limits "lower_bound_loss_profit_ratio" ≤
      max (limits "lower_bound_loss_profit_ratio") (a1 "loss_profit_ratio") :=
    le_max_left _ _
  nlinarith

/-- Statistics record violating the worst-drawdown constraint by margin 1. -/
def analysisDdViolBig : String → ℚ := fun k => if k = "drawdown_worst" then 1 else 0

theorem calcModifier_priority_ordering_witness :
    calcModifier limitsZero analysisLprViol < calcModifier limitsZero analysisDdViolBig := by
  refine calcModifier_priority_ordering limitsZero analysisDdViolBig analysisLprViol 1
    (by norm_num) ?_ ?_ ?_ ?_ <;>
    (simp only [limitsZero, analysisDdViolBig, analysisLprViol,
      String.reduceEq, reduceIte]; norm_num)

/-! ### Genome codec (`config_to_individual` / `individual_to_config`)

A live config is modelled by the parts the codec touches: the two bot
parameter dictionaries (`config["bot"]["long"]`, `config["bot"]["short"]`),
each an association list of key/value pairs in Python-dict insertion order,
plus an opaque `rest` standing for every other field of the config.  The
key type `κ` is any linearly ordered type (Python uses strings under their
lexicographic order).  Python's `deepcopy` is value copying, `sorted` is
modelled by insertion sort, and dict assignment `d[k] = v` replaces the
value in place when the key exists and appends otherwise. -/

/-- Insert a pair into a key-sorted association list (one step of the
insertion sort modelling Python's `sorted`). -/
def insertSorted {κ : Type} [LinearOrder κ] (p : κ × ℚ) :
    List (κ × ℚ) → List (κ × ℚ)
  | [] => [p]
  | q :: rest => if p.1 ≤ q.1 then p :: q :: rest else q :: insertSorted p rest

/-- Python's `sorted(d.items())` on a dict with pairwise-distinct keys:
sort the pairs by key. -/
def sortDict {κ : Type} [LinearOrder κ] (d : List (κ × ℚ)) : List (κ × ℚ) :=
  d.foldr insertSorted []

/-- The `config["bot"]` sub-dictionary: a `"long"` and a `"short"` side. -/
structure BotConfig (κ : Type) where
  long : List (κ × ℚ)
  short : List (κ × ℚ)
deriving DecidableEq

/-- A live configuration: the bot parameter sides plus all remaining
fields, which the codec never inspects, collapsed into `rest`. -/
structure Config (κ ρ : Type) where
  bot : BotConfig κ
  rest : ρ
deriving DecidableEq

/-- `config_to_individual`: for `pside` in `["long", "short"]` append the
values of `sorted(config["bot"][pside].items())`. -/
def config_to_individual {κ ρ : Type} [LinearOrder κ] (config : Config κ ρ) :
    List ℚ :=
  (sortDict config.bot.long).map Prod.snd ++
    (sortDict config.bot.short).map Prod.snd

/-- Python dict assignment `d[k] = v`: replace in place if the key is
present, append otherwise. -/
def dictSet {κ α : Type} [DecidableEq κ] : List (κ × α) → κ → α → List (κ × α)
  | [], k, v => [(k, v)]
  | q :: d, k, v => if q.1 = k then (k, v) :: d else q :: dictSet d k v

/-- The inner loop of `individual_to_config` for one side: write the genome
values into the side's dict at the template's sorted key order. -/
def writeSide {κ : Type} [DecidableEq κ] (d : List (κ × ℚ)) (keys : List κ)
    (vals : List ℚ) : List (κ × ℚ) :=
  (keys.zip vals).foldl (fun acc p => dictSet acc p.1 p.2) d

/-- `individual_to_config`: deep-copy the template, compute
`keys = sorted(config["bot"]["long"])`, then walk `"long"` then `"short"`
writing `individual[i]` into `config["bot"][pside][key]` with a running
index `i` (so `"long"` consumes the first `len(keys)` genome entries and
`"short"` the rest). -/
def individual_to_config {κ ρ : Type} [LinearOrder κ] (individual : List ℚ)
    (template : Config κ ρ) : Config κ ρ :=
  let keys := (sortDict template.bot.long).map Prod.fst
  { bot :=
      { long := writeSide template.bot.long keys (individual.take keys.length),
        short := writeSide template.bot.short keys (individual.drop keys.length) },
    rest := template.rest }

/-- Key order of an association list modelling a dict whose keys were
inserted in sorted order (the canonical representative of a Python dict
value up to `==`, which ignores insertion order). -/
abbrev KeySorted {κ : Type} [LinearOrder κ] (d : List (κ × ℚ)) : Prop :=
  d.Pairwise (fun p q => p.1 < q.1)

theorem insertSorted_cons_of_le {κ : Type} [LinearOrder κ] (p q : κ × ℚ)
    (l : List (κ × ℚ)) (h : p.1 ≤ q.1) : insertSorted p (q :: l) = p :: q :: l := by
  simp [insertSorted, h]

theorem sortDict_eq_self {κ : Type} [LinearOrder κ] (d : List (κ × ℚ))
    (hd : KeySorted d) : sortDict d = d := by
  induction d with
  | nil => rfl
  | cons p rest ih =>
    have hp : ∀ q ∈ rest, p.1 < q.1 := (List.pairwise_cons.mp hd).1
    have hrest : KeySorted rest := (List.pairwise_cons.mp hd).2
    show insertSorted p (sortDict rest) = p :: rest
    rw [ih hrest]
    cases rest with
    | nil => rfl
    | cons q r => exact insertSorted_cons_of_le p q r (le_of_lt (hp q (by simp)))

theorem dictSet_cons_ne {κ α : Type} [DecidableEq κ] (q : κ × α)
    (d : List (κ × α)) (k : κ) (v : α) (h : q.1 ≠ k) :
    dictSet (q :: d) k v = q :: dictSet d k v := by
  simp [dictSet, h]

theorem writeSide_cons_cons {κ : Type} [DecidableEq κ] (d : List (κ × ℚ))
    (k : κ) (ks : List κ) (v : ℚ) (vs : List ℚ) :
    writeSide d (k :: ks) (v :: vs) = writeSide (dictSet d k v) ks vs := rfl

theorem writeSide_cons {κ : Type} [DecidableEq κ] (q : κ × ℚ)
    (d : List (κ × ℚ)) (keys : List κ) (vals : List ℚ)
    (h : ∀ k ∈ keys, k ≠ q.1) :
    writeSide (q :: d) keys vals = q :: writeSide d keys vals := by
  induction keys generalizing d vals with
  | nil => rfl
  | cons k ks ih =>
    cases vals with
    | nil => rfl
    | cons v vs =>
      rw [writeSide_cons_cons,
        dictSet_cons_ne q d k v (fun hq => h k (by simp) hq.symm),
        ih (dictSet d k v) vs (fun k2 hk2 => h k2 (by simp [hk2]))]
      rfl

theorem writeSide_self_keys {κ : Type} [DecidableEq κ] (d : List (κ × ℚ))
    (vals : List ℚ) (hnd : (d.map Prod.fst).Nodup) (hlen : vals.length = d.length) :
    writeSide d (d.map Prod.fst) vals = (d.map Prod.fst).zip vals := by
  induction d generalizing vals with
  | nil => cases vals with
    | nil => rfl
    | cons v vs => simp at hlen
  | cons p rest ih =>
    cases vals with
    | nil => simp at hlen
    | cons v vs =>
      rw [List.map_cons] at hnd
      have hnd2 := List.nodup_cons.mp hnd
      have hhead : ∀ k ∈ rest.map Prod.fst, k ≠ p.1 := by
        intro k hk he
        exact hnd2.1 (he ▸ hk)
      have hstep : dictSet (p :: rest) p.1 v = (p.1, v) :: rest := by
        simp [dictSet]
      calc writeSide (p :: rest) ((p :: rest).map Prod.fst) (v :: vs)
          = writeSide ((p.1, v) :: rest) (rest.map Prod.fst) vs := by
            rw [List.map_cons, writeSide_cons_cons, hstep]
        _ = (p.1, v) :: writeSide rest (rest.map Prod.fst) vs :=
            writeSide_cons ((p.1, v)) rest (rest.map Prod.fst) vs hhead
        _ = (p.1, v) :: (rest.map Prod.fst).zip vs := by
            rw [ih vs hnd2.2 (by simpa using hlen)]
        _ = ((p :: rest).map Prod.fst).zip (v :: vs) := by simp

theorem keys_nodup_of_keySorted {κ : Type} [LinearOrder κ] (d : List (κ × ℚ))
    (hd : KeySorted d) : (d.map Prod.fst).Nodup := by
  have : (d.map Prod.fst).Pairwise (· < ·) := List.Pairwise.map Prod.fst (fun a b h => h) hd
  exact this.imp ne_of_lt

/-- C2 amended: when every bot side of the config and of the template carries
the template's parameter set (and the dicts are in canonical key-sorted
order), decoding the encoding of a config against the template reproduces
the config's bot parameters exactly, while every other field comes from the
template; `decode(encode(config), template) == config` itself therefore
holds exactly when the config agrees with the template outside the bot
parameters. -/
theorem individual_to_config_config_to_individual {κ ρ : Type} [LinearOrder κ]
    (c template : Config κ ρ)
    (hcl : KeySorted c.bot.long) (hcs : KeySorted c.bot.short)
    (htl : KeySorted template.bot.long) (hts : KeySorted template.bot.short)
    (hk1 : c.bot.long.map Prod.fst = template.bot.long.map Prod.fst)
    (hk2 : c.bot.short.map Prod.fst = template.bot.long.map Prod.fst)
    (hk3 : template.bot.short.map Prod.fst = template.bot.long.map Prod.fst) :
    individual_to_config (config_to_individual c) template =
      ⟨c.bot, template.rest⟩ := by
  have henc : config_to_individual c =
      c.bot.long.map Prod.snd ++ c.bot.short.map Prod.snd := by
    rw [config_to_individual, sortDict_eq_self c.bot.long hcl,
      sortDict_eq_self c.bot.short hcs]
  have hkeys : (sortDict template.bot.long).map Prod.fst =
      template.bot.long.map Prod.fst := by
    rw [sortDict_eq_self template.bot.long htl]
  have hlenl : (c.bot.long.map Prod.snd).length =
      (template.bot.long.map Prod.fst).length := by
    rw [List.length_map, List.length_map, ← List.length_map c.bot.long Prod.fst,
      hk1, List.length_map]
  have htake : (config_to_individual c).take
      ((template.bot.long.map Prod.fst).length) = c.bot.long.map Prod.snd := by
    rw [henc, ← hlenl, List.take_left]
  have hdrop : (config_to_individual c).drop
      ((template.bot.long.map Prod.fst).length) = c.bot.short.map Prod.snd := by
    rw [henc, ← hlenl, List.drop_left]
  have hlong : writeSide template.bot.long (template.bot.long.map Prod.fst)
      (c.bot.long.map Prod.snd) = c.bot.long := by
    rw [writeSide_self_keys template.bot.long (c.bot.long.map Prod.snd)
        (keys_nodup_of_keySorted template.bot.long htl)
        (by rw [List.length_map, ← List.length_map c.bot.long Prod.fst, hk1,
          List.length_map]),
      ← hk1]
    exact (List.zip_of_prod rfl rfl).symm
  have hshort : writeSide template.bot.short (template.bot.long.map Prod.fst)
      (c.bot.short.map Prod.snd) = c.bot.short := by
    rw [← hk3, writeSide_self_keys template.bot.short (c.bot.short.map Prod.snd)
        (keys_nodup_of_keySorted template.bot.short hts)
        (by rw [List.length_map, ← List.length_map c.bot.short Prod.fst, hk2,
          ← hk3, List.length_map]),
      hk3, ← hk2]
    exact (List.zip_of_prod rfl rfl).symm
  show Config.mk (BotConfig.mk _ _) _ = _
  rw [hkeys, htake, hdrop, hlong, hshort]

/-- Concrete config for the C2 counterexample: same bot parameter set as the
template below, but a different `rest`. -/
def cfgC2 : Config Nat Nat := ⟨⟨[(0, 1)], [(0, 2)]⟩, 0⟩

/-- Concrete template for the C2 counterexample. -/
def tplC2 : Config Nat Nat := ⟨⟨[(0, 9)], [(0, 9)]⟩, 1⟩

/-- C2 counterexample: the parameter sets of `cfgC2` and `tplC2` coincide,
yet `decode(encode(cfgC2), tplC2) ≠ cfgC2`, because decoding deep-copies the
template and only overwrites the bot parameters, so every field outside them
(here `rest`) comes from the template. -/
theorem individual_to_config_roundtrip_counterexample :
    (cfgC2.bot.long.map Prod.fst = tplC2.bot.long.map Prod.fst ∧
     cfgC2.bot.short.map Prod.fst = tplC2.bot.long.map Prod.fst ∧
     tplC2.bot.short.map Prod.fst = tplC2.bot.long.map Prod.fst) ∧
    individual_to_config (config_to_individual cfgC2) tplC2 ≠ cfgC2 := by
  constructor
  · exact ⟨rfl, rfl, rfl⟩
  · decide

/-- Concrete two-parameter config agreeing with its template outside the bot
parameters. -/
def cfgC2W : Config Nat Nat := ⟨⟨[(0, 1), (1, 2)], [(0, 3), (1, 4)]⟩, 7⟩

/-- Concrete template matching `cfgC2W`'s parameter set and `rest`. -/
def tplC2W : Config Nat Nat := ⟨⟨[(0, 0), (1, 0)], [(0, 0), (1, 0)]⟩, 7⟩

theorem individual_to_config_config_to_individual_witness :
    individual_to_config (config_to_individual cfgC2W) tplC2W =
      ⟨cfgC2W.bot, tplC2W.rest⟩ ∧
    individual_to_config (config_to_individual cfgC2W) tplC2W = cfgC2W := by
  have h := individual_to_config_config_to_individual cfgC2W tplC2W
    (by decide) (by decide) (by decide) (by decide) rfl rfl rfl
  exact ⟨h, h⟩

/-! ### Seed loading (`configs_to_individuals`)

`format_config` and `calc_hash` live outside the two source files; they are
kept abstract: an arbitrary normalization that may fail (the `try`/`except`
skips a seed whose processing raises) and an arbitrary hash function on
genomes.  The accumulator `inds` is the Python dict keyed by genome hash. -/

/-- One iteration of the `configs_to_individuals` loop: encode the formatted
config and store it in the dict under its hash (`inds[calc_hash(individual)]
= individual`), or skip the config when formatting raises. -/
def seedStep {κ ρ : Type} [LinearOrder κ] (calc_hash : List ℚ → Nat)
    (format_config : Config κ ρ → Option (Config κ ρ))
    (inds : List (Nat × List ℚ)) (cfg : Config κ ρ) : List (Nat × List ℚ) :=
  match format_config cfg with
  | some c =>
      dictSet inds (calc_hash (config_to_individual c)) (config_to_individual c)
  | none => inds

/-- `configs_to_individuals`: fold the seed configs through the hash-keyed
dict and return `list(inds.values())`. -/
def configs_to_individuals {κ ρ : Type} [LinearOrder κ]
    (calc_hash : List ℚ → Nat)
    (format_config : Config κ ρ → Option (Config κ ρ))
    (cfgs : List (Config κ ρ)) : List (List ℚ) :=
  (cfgs.foldl (seedStep calc_hash format_config) []).map Prod.snd

theorem dictSet_map_fst_of_mem {κ α : Type} [DecidableEq κ]
    (d : List (κ × α)) (k : κ) (v : α) (h : k ∈ d.map Prod.fst) :
    (dictSet d k v).map Prod.fst = d.map Prod.fst := by
  induction d with
  | nil => simp at h
  | cons q rest ih =>
    by_cases hq : q.1 = k
    · simp [dictSet, hq]
    · simp only [List.map_cons, List.mem_cons] at h
      have hk : k ∈ rest.map Prod.fst := by
        rcases h with he | hm
        · exact absurd he.symm hq
        · exact hm
      rw [dictSet_cons_ne q rest k v hq, List.map_cons, List.map_cons, ih hk]

theorem dictSet_map_fst_of_not_mem {κ α : Type} [DecidableEq κ]
    (d : List (κ × α)) (k : κ) (v : α) (h : k ∉ d.map Prod.fst) :
    (dictSet d k v).map Prod.fst = d.map Prod.fst ++ [k] := by
  induction d with
  | nil => simp [dictSet]
  | cons q rest ih =>
    have hq : q.1 ≠ k := by
      intro he
      exact h (by simp [he])
    rw [dictSet_cons_ne q rest k v hq, List.map_cons, List.map_cons,
      ih (fun hm => h (by simp [hm]))]
    simp

theorem dictSet_key_mem {κ α : Type} [DecidableEq κ]
    (d : List (κ × α)) (k : κ) (v : α) : k ∈ (dictSet d k v).map Prod.fst := by
  by_cases h : k ∈ d.map Prod.fst
  · rw [dictSet_map_fst_of_mem d k v h]; exact h
  · rw [dictSet_map_fst_of_not_mem d k v h]; simp

theorem dictSet_key_mono {κ α : Type} [DecidableEq κ]
    (d : List (κ × α)) (k k2 : κ) (v : α) (h : k2 ∈ d.map Prod.fst) :
    k2 ∈ (dictSet d k v).map Prod.fst := by
  by_cases hk : k ∈ d.map Prod.fst
  · rw [dictSet_map_fst_of_mem d k v hk]; exact h
  · rw [dictSet_map_fst_of_not_mem d k v hk]; simp [h]

theorem dictSet_nodup {κ α : Type} [DecidableEq κ]
    (d : List (κ × α)) (k : κ) (v : α) (h : (d.map Prod.fst).Nodup) :
    ((dictSet d k v).map Prod.fst).Nodup := by
  by_cases hk : k ∈ d.map Prod.fst
  · rw [dictSet_map_fst_of_mem d k v hk]; exact h
  · rw [dictSet_map_fst_of_not_mem d k v hk]
    simp [List.nodup_append, h, hk]

theorem dictSet_mem_val {κ α : Type} [DecidableEq κ]
    (d : List (κ × α)) (k : κ) (v : α) (p : κ × α) (hp : p ∈ dictSet d k v) :
    p ∈ d ∨ p = (k, v) := by
  induction d with
  | nil => simp [dictSet] at hp; exact Or.inr hp
  | cons q rest ih =>
    by_cases hq : q.1 = k
    · simp [dictSet, hq] at hp
      rcases hp with hp | hp
      · exact Or.inr (by simp [hp])
      · exact Or.inl (by simp [hp])
    · rw [dictSet_cons_ne q rest k v hq] at hp
      rcases List.mem_cons.mp hp with hp | hp
      · exact Or.inl (by simp [hp])
      · rcases ih hp with hp | hp
        · exact Or.inl (by simp [hp])
        · exact Or.inr hp

/-- The invariant maintained by the seed-loading dict: keys are pairwise
distinct and each entry's key is the hash of its value. -/
def SeedDictInv (calc_hash : List ℚ → Nat) (inds : List (Nat × List ℚ)) : Prop :=
  (inds.map Prod.fst).Nodup ∧ ∀ p ∈ inds, p.1 = calc_hash p.2

theorem seedFold_invariant {κ ρ : Type} [LinearOrder κ]
    (calc_hash : List ℚ → Nat) (format_config : Config κ ρ → Option (Config κ ρ))
    (cfgs : List (Config κ ρ)) (inds : List (Nat × List ℚ))
    (h : SeedDictInv calc_hash inds) :
    SeedDictInv calc_hash (cfgs.foldl (seedStep calc_hash format_config) inds) := by
  induction cfgs generalizing inds with
  | nil => exact h
  | cons cfg rest ih =>
    refine ih (seedStep calc_hash format_config inds cfg) ?_
    unfold seedStep
    cases format_config cfg with
    | none => exact h
    | some c =>
      refine ⟨dictSet_nodup _ _ _ h.1, ?_⟩
      intro p hp
      rcases dictSet_mem_val _ _ _ p hp with hp2 | hp2
      · exact h.2 p hp2
      · rw [hp2]

theorem seedFold_key_mono {κ ρ : Type} [LinearOrder κ]
    (calc_hash : List ℚ → Nat) (format_config : Config κ ρ → Option (Config κ ρ))
    (cfgs : List (Config κ ρ)) (inds : List (Nat × List ℚ)) (k : Nat)
    (h : k ∈ inds.map Prod.fst) :
    k ∈ (cfgs.foldl (seedStep calc_hash format_config) inds).map Prod.fst := by
  induction cfgs generalizing inds with
  | nil => exact h
  | cons cfg rest ih =>
    refine ih (seedStep calc_hash format_config inds cfg) ?_
    unfold seedStep
    cases format_config cfg with
    | none => exact h
    | some c => exact dictSet_key_mono _ _ _ _ h

theorem seedFold_key_mem {κ ρ : Type} [LinearOrder κ]
    (calc_hash : List ℚ → Nat) (format_config : Config κ ρ → Option (Config κ ρ))
    (cfgs : List (Config κ ρ)) (inds : List (Nat × List ℚ))
    (cfg : Config κ ρ) (hcfg : cfg ∈ cfgs) (c : Config κ ρ)
    (hfmt : format_config cfg = some c) :
    calc_hash (config_to_individual c) ∈
      (cfgs.foldl (seedStep calc_hash format_config) inds).map Prod.fst := by
  induction cfgs generalizing inds with
  | nil => simp at hcfg
  | cons cfg0 rest ih =>
    rcases List.mem_cons.mp hcfg with he | hmem
    · subst he
      refine seedFold_key_mono calc_hash format_config rest _ _ ?_
      simp only [seedStep, hfmt]
      exact dictSet_key_mem _ _ _
    · exact ih _ hmem

/-- C8: every genome hash occurs at most once in the output of
`configs_to_individuals`, and every seed whose formatting succeeds has its
genome hash present, so seeds encoding to hash-equal genomes contribute
exactly one individual. -/
theorem configs_to_individuals_hash_dedup {κ ρ : Type} [LinearOrder κ]
    (calc_hash : List ℚ → Nat)
    (format_config : Config κ ρ → Option (Config κ ρ))
    (cfgs : List (Config κ ρ)) :
    ((configs_to_individuals calc_hash format_config cfgs).map calc_hash).Nodup ∧
    ∀ cfg ∈ cfgs, ∀ c, format_config cfg = some c →
      calc_hash (config_to_individual c) ∈
        (configs_to_individuals calc_hash format_config cfgs).map calc_hash := by
  have hinv : SeedDictInv calc_hash
      (cfgs.foldl (seedStep calc_hash format_config) []) :=
    seedFold_invariant calc_hash format_config cfgs [] (by simp [SeedDictInv])
  have hmap : (configs_to_individuals calc_hash format_config cfgs).map calc_hash =
      (cfgs.foldl (seedStep calc_hash format_config) []).map Prod.fst := by
    rw [configs_to_individuals, List.map_map]
    exact List.map_congr_left (fun p hp => (hinv.2 p hp).symm)
  constructor
  · rw [hmap]; exact hinv.1
  · intro cfg hcfg c hfmt
    rw [hmap]
    exact seedFold_key_mem calc_hash format_config cfgs [] cfg hcfg c hfmt

/-- A hash function for the witness: the genome's length (so the two
distinct seed configs below collide). -/
def hashLen : List ℚ → Nat := fun individual => individual.length

theorem configs_to_individuals_hash_dedup_witness :
    ((configs_to_individuals hashLen some [cfgC2, tplC2]).map hashLen).Nodup ∧
    hashLen (config_to_individual cfgC2) ∈
      (configs_to_individuals hashLen some [cfgC2, tplC2]).map hashLen := by
  refine ⟨(configs_to_individuals_hash_dedup hashLen some [cfgC2, tplC2]).1, ?_⟩
  exact (configs_to_individuals_hash_dedup hashLen some [cfgC2, tplC2]).2
    cfgC2 (by simp) cfgC2 rfl

/-! ### Decoding never mutates the template (`individual_to_config`)

To state the frame property the Python object graph is made explicit: a
store maps references (allocated below `next`) to config values.
`deepcopy(template)` reads the template's value and allocates a fresh
reference holding a copy; every subsequent dict assignment of the decode
loop writes through the fresh reference only. -/

/-- A heap of config objects: references `0, ..., next - 1` are allocated. -/
structure Store (κ ρ : Type) where
  next : Nat
  mem : Nat → Config κ ρ

/-- Allocate a fresh reference holding `c`. -/
def allocRef {κ ρ : Type} (s : Store κ ρ) (c : Config κ ρ) : Nat × Store κ ρ :=
  (s.next, ⟨s.next + 1, fun r => if r = s.next then c else s.mem r⟩)

/-- In-place update of the object behind reference `r`. -/
def writeRef {κ ρ : Type} (s : Store κ ρ) (r : Nat)
    (f : Config κ ρ → Config κ ρ) : Store κ ρ :=
  ⟨s.next, fun x => if x = r then f (s.mem x) else s.mem x⟩

/-- The single dict assignment `config["bot"][pside][key] = v` on a config
value, with `pside` `true` for `"long"` and `false` for `"short"`. -/
def setSideKey {κ ρ : Type} [DecidableEq κ] (pside : Bool) (k : κ) (v : ℚ)
    (c : Config κ ρ) : Config κ ρ :=
  if pside then
    { c with bot := { c.bot with long := dictSet c.bot.long k v } }
  else
    { c with bot := { c.bot with short := dictSet c.bot.short k v } }

/-- `individual_to_config` acting on the store: `config = deepcopy(template)`
allocates a fresh object from the template's current value, then the nested
loops assign `individual[i]` through the fresh reference (`"long"` consumes
the first `len(keys)` entries and `"short"` the rest), and the fresh
reference is returned. -/
def individual_to_config_ref {κ ρ : Type} [LinearOrder κ]
    (individual : List ℚ) (tref : Nat) (s : Store κ ρ) : Nat × Store κ ρ :=
  let alloc := allocRef s (s.mem tref)
  let keys := (sortDict ((alloc.2.mem alloc.1).bot.long)).map Prod.fst
  let s1 := (keys.zip individual).foldl
    (fun st kv => writeRef st alloc.1 (setSideKey true kv.1 kv.2)) alloc.2
  let s2 := (keys.zip (individual.drop keys.length)).foldl
    (fun st kv => writeRef st alloc.1 (setSideKey false kv.1 kv.2)) s1
  (alloc.1, s2)

theorem writeRef_mem_ne {κ ρ : Type} (s : Store κ ρ) (r r2 : Nat)
    (f : Config κ ρ → Config κ ρ) (h : r2 ≠ r) :
    (writeRef s r f).mem r2 = s.mem r2 := by
  simp [writeRef, h]

theorem foldl_writeRef_mem_ne {κ ρ : Type} (l : List (κ × ℚ)) (r r2 : Nat)
    (g : κ × ℚ → Config κ ρ → Config κ ρ) (s : Store κ ρ) (h : r2 ≠ r) :
    (l.foldl (fun st kv => writeRef st r (g kv)) s).mem r2 = s.mem r2 := by
  induction l generalizing s with
  | nil => rfl
  | cons kv rest ih => rw [List.foldl_cons, ih, writeRef_mem_ne s r r2 (g kv) h]

/-- C9: decoding a genome against a template never mutates the template
object: for any valid template reference, the object behind it after
`individual_to_config` runs is unchanged (the result is built on a fresh
deep copy), and the returned reference is a different object. -/
theorem individual_to_config_preserves_template {κ ρ : Type} [LinearOrder κ]
    (individual : List ℚ) (tref : Nat) (s : Store κ ρ) (h : tref < s.next) :
    ((individual_to_config_ref individual tref s).2).mem tref = s.mem tref ∧
    (individual_to_config_ref individual tref s).1 ≠ tref := by
  have hne : tref ≠ s.next := Nat.ne_of_lt h
  constructor
  · show ((List.zip _ _).foldl
        (fun st kv => writeRef st (allocRef s (s.mem tref)).1 (setSideKey false kv.1 kv.2))
        ((List.zip _ _).foldl
          (fun st kv => writeRef st (allocRef s (s.mem tref)).1 (setSideKey true kv.1 kv.2))
          (allocRef s (s.mem tref)).2)).mem tref = s.mem tref
    rw [foldl_writeRef_mem_ne _ ((allocRef s (s.mem tref)).1) tref _ _ hne,
      foldl_writeRef_mem_ne _ ((allocRef s (s.mem tref)).1) tref _ _ hne]
    simp [allocRef, hne]
  · exact fun he => hne he.symm

/-- A one-object store for the C9 witness: reference 0 holds `cfgC2W`. -/
def storeC9 : Store Nat Nat := ⟨1, fun _ => cfgC2W⟩

theorem individual_to_config_preserves_template_witness :
    ((individual_to_config_ref [3, 4, 5, 6] 0 storeC9).2).mem 0 = storeC9.mem 0 ∧
    (individual_to_config_ref [3, 4, 5, 6] 0 storeC9).1 ≠ 0 :=
  individual_to_config_preserves_template [3, 4, 5, 6] 0 storeC9 (by norm_num [storeC9])

/-! ### Bounded genetic operator wrappers

The underlying DEAP operators (`tools.mutPolynomialBounded`,
`tools.cxSimulatedBinaryBounded`) are external and randomized; they are
modelled as arbitrary functions of the same shape, quantified over in the
theorems (so the results hold regardless of operator randomness). -/

/-- `np.where(equal_bounds_mask, low_array - 1e-6, low_array)`. -/
def widenEqualLow (low up : List ℚ) : List ℚ :=
  low.zipWith (fun l u => if l = u then l - 1/1000000 else l) up

/-- `np.where(equal_bounds_mask, up_array + 1e-6, up_array)`. -/
def widenEqualUp (low up : List ℚ) : List ℚ :=
  low.zipWith (fun l u => if l = u then u + 1/1000000 else u) up

/-- The post-pass of both wrappers: for every dimension of the bound arrays
whose lower and upper bound coincide, reset the individual's value to the
bound; other dimensions (and positions beyond the bound arrays) are kept. -/
def resetEqual : List ℚ → List ℚ → List ℚ → List ℚ
  | l :: ls, u :: us, x :: xs => (if l = u then l else x) :: resetEqual ls us xs
  | _, _, xs => xs

/-- `mutPolynomialBoundedWrapper`: widen zero-width bounds by `1e-6`, run the
underlying bounded mutation on the widened bounds, then reset originally
fixed dimensions to `low[i]`. -/
def mutPolynomialBoundedWrapper
    (mutInner : List ℚ → ℚ → List ℚ → List ℚ → ℚ → List ℚ)
    (individual : List ℚ) (eta : ℚ) (low up : List ℚ) (indpb : ℚ) : List ℚ :=
  resetEqual low up
    (mutInner individual eta (widenEqualLow low up) (widenEqualUp low up) indpb)

/-- `cxSimulatedBinaryBoundedWrapper`: widen zero-width bounds by `1e-6`, run
the underlying bounded crossover on the widened bounds, then reset
originally fixed dimensions of both children to `low[i]`. -/
def cxSimulatedBinaryBoundedWrapper
    (cxInner : List ℚ → List ℚ → ℚ → List ℚ → List ℚ → List ℚ × List ℚ)
    (ind1 ind2 : List ℚ) (eta : ℚ) (low up : List ℚ) : List ℚ × List ℚ :=
  let r := cxInner ind1 ind2 eta (widenEqualLow low up) (widenEqualUp low up)
  (resetEqual low up r.1, resetEqual low up r.2)

theorem resetEqual_get_fixed : ∀ (ls us xs : List ℚ) (i : Nat) (b : ℚ),
    ls[i]? = some b → us[i]? = some b → i < xs.length →
    (resetEqual ls us xs)[i]? = some b
  | [], _, _, i, b, hl, _, _ => by simp at hl
  | _ :: _, [], _, i, b, _, hu, _ => by simp at hu
  | _ :: _, _ :: _, [], i, b, _, _, hx => by simp at hx
  | l :: ls, u :: us, x :: xs, 0, b, hl, hu, hx => by
      simp only [List.getElem?_cons_zero, Option.some_inj] at hl hu
      simp [resetEqual, hl, hu]
  | l :: ls, u :: us, x :: xs, i + 1, b, hl, hu, hx => by
      simp only [List.getElem?_cons_succ] at hl hu
      simpa [resetEqual] using
        resetEqual_get_fixed ls us xs i b hl hu (by simpa using hx)

theorem resetEqual_get_free : ∀ (ls us xs : List ℚ) (i : Nat) (b u : ℚ),
    ls[i]? = some b → us[i]? = some u → b ≠ u →
    (resetEqual ls us xs)[i]? = xs[i]?
  | [], _, _, i, b, u, hl, _, _ => by simp at hl
  | _ :: _, [], _, i, b, u, _, hu, _ => by simp at hu
  | _ :: _, _ :: _, [], i, b, u, _, _, _ => by simp [resetEqual]
  | l :: ls, u0 :: us, x :: xs, 0, b, u, hl, hu, hne => by
      simp only [List.getElem?_cons_zero, Option.some_inj] at hl hu
      subst hl hu
      simp [resetEqual, hne]
  | l :: ls, u0 :: us, x :: xs, i + 1, b, u, hl, hu, hne => by
      simp only [List.getElem?_cons_succ] at hl hu
      simpa [resetEqual] using resetEqual_get_free ls us xs i b u hl hu hne

theorem resetEqual_length : ∀ (ls us xs : List ℚ),
    (resetEqual ls us xs).length = xs.length
  | l :: ls, u :: us, x :: xs => by
      simp [resetEqual, resetEqual_length ls us xs]
  | [], _, _ => rfl
  | _ :: _, [], _ => rfl
  | _ :: _, _ :: _, [] => rfl

/-- C3: for every dimension whose lower and upper bound coincide, after the
mutation wrapper or the crossover wrapper runs, that dimension's value in
every offspring equals the fixed bound exactly, regardless of the underlying
bounded operator (hence of its randomness); dimensions whose bounds differ
are exactly the underlying operator's output, so only they are perturbed. -/
theorem wrappers_preserve_fixed_dimensions
    (mutInner : List ℚ → ℚ → List ℚ → List ℚ → ℚ → List ℚ)
    (cxInner : List ℚ → List ℚ → ℚ → List ℚ → List ℚ → List ℚ × List ℚ)
    (individual ind1 ind2 low up : List ℚ) (eta indpb : ℚ) (i : Nat) (b : ℚ)
    (hml : ∀ xs e lo hi p, (mutInner xs e lo hi p).length = xs.length)
    (hcl : ∀ a c e lo hi, (cxInner a c e lo hi).1.length = a.length ∧
      (cxInner a c e lo hi).2.length = c.length)
    (hlow : low[i]? = some b) :
    (up[i]? = some b →
      (i < individual.length →
        (mutPolynomialBoundedWrapper mutInner individual eta low up indpb)[i]? =
          some b) ∧
      (i < ind1.length →
        (cxSimulatedBinaryBoundedWrapper cxInner ind1 ind2 eta low up).1[i]? =
          some b) ∧
      (i < ind2.length →
        (cxSimulatedBinaryBoundedWrapper cxInner ind1 ind2 eta low up).2[i]? =
          some b)) ∧
    (∀ u, up[i]? = some u → b ≠ u →
      (mutPolynomialBoundedWrapper mutInner individual eta low up indpb)[i]? =
        (mutInner individual eta (widenEqualLow low up) (widenEqualUp low up)
          indpb)[i]?) := by
  constructor
  · intro hup
    refine ⟨fun hi => ?_, fun hi1 => ?_, fun hi2 => ?_⟩
    · exact resetEqual_get_fixed low up _ i b hlow hup (by rw [hml]; exact hi)
    · exact resetEqual_get_fixed low up _ i b hlow hup
        (by rw [(hcl ind1 ind2 eta (widenEqualLow low up) (widenEqualUp low up)).1]
            exact hi1)
    · exact resetEqual_get_fixed low up _ i b hlow hup
        (by rw [(hcl ind1 ind2 eta (widenEqualLow low up) (widenEqualUp low up)).2]
            exact hi2)
  · intro u hup hne
    exact resetEqual_get_free low up _ i b u hlow hup hne

/-- Example underlying mutation for the witness: add 1 to every dimension. -/
def mutInnerEx : List ℚ → ℚ → List ℚ → List ℚ → ℚ → List ℚ :=
  fun xs _ _ _ _ => xs.map (fun x => x + 1)

/-- Example underlying crossover for the witness: shift both parents. -/
def cxInnerEx : List ℚ → List ℚ → ℚ → List ℚ → List ℚ → List ℚ × List ℚ :=
  fun a c _ _ _ => (a.map (fun x => x + 1), c.map (fun x => x + 2))

theorem wrappers_preserve_fixed_dimensions_witness :
    (mutPolynomialBoundedWrapper mutInnerEx [9, 9] 20 [2, 0] [2, 1] (1/2))[0]? =
      some 2 ∧
    (cxSimulatedBinaryBoundedWrapper cxInnerEx [9, 9] [8, 8] 20 [2, 0] [2, 1]).1[0]? =
      some 2 ∧
    (cxSimulatedBinaryBoundedWrapper cxInnerEx [9, 9] [8, 8] 20 [2, 0] [2, 1]).2[0]? =
      some 2 := by
  have h := (wrappers_preserve_fixed_dimensions mutInnerEx cxInnerEx
    [9, 9] [9, 9] [8, 8] [2, 0] [2, 1] 20 (1/2) 0 2
    (fun xs e lo hi p => by simp [mutInnerEx])
    (fun a c e lo hi => ⟨by simp [cxInnerEx], by simp [cxInnerEx]⟩) rfl).1 rfl
  exact ⟨h.1 (by norm_num), h.2.1 (by norm_num), h.2.2 (by norm_num)⟩

/-! ### Initial population seeding (`main`)

`toolbox.population` draws random individuals; it is modelled as an
arbitrary generator producing the requested number of individuals. -/

/-- The clamp applied to each seed:
`max(min(x, bounds[z][1]), bounds[z][0])` over `enumerate(individual)`. -/
def clampIndividual (bounds : List (ℚ × ℚ)) (individual : List ℚ) : List ℚ :=
  individual.zipWith (fun x b => max (min x b.2) b.1) bounds

/-- The seed-overwrite loop of `main`:
`for i in range(len(starting_individuals)): population[i] = adjusted`. -/
def overwriteFrom (bounds : List (ℚ × ℚ)) :
    List (List ℚ) → List (List ℚ) → Nat → List (List ℚ)
  | population, [], _ => population
  | population, s :: rest, i =>
      overwriteFrom bounds (population.set i (clampIndividual bounds s)) rest (i + 1)

/-- The population setup of `main`: grow `population_size` to the seed count
when the (deduplicated) seeds outnumber it, draw that many random
individuals, then, when there are seeds, overwrite the first ones with the
bound-clamped seeds.  Returns the updated population size and the initial
population. -/
def setupPopulation (randomPopulation : Nat → List (List ℚ))
    (bounds : List (ℚ × ℚ)) (population_size : Nat)
    (starting_individuals : List (List ℚ)) : Nat × List (List ℚ) :=
  let newSize := if starting_individuals.length > population_size then
    starting_individuals.length else population_size
  let population := randomPopulation newSize
  let population2 := if starting_individuals.isEmpty then population
    else overwriteFrom bounds population starting_individuals 0
  (newSize, population2)

theorem overwriteFrom_length (bounds : List (ℚ × ℚ)) :
    ∀ (seeds population : List (List ℚ)) (i : Nat),
    (overwriteFrom bounds population seeds i).length = population.length
  | [], population, i => rfl
  | s :: rest, population, i => by
      rw [overwriteFrom, overwriteFrom_length bounds rest _ (i + 1),
        List.length_set]

theorem overwriteFrom_get_lt (bounds : List (ℚ × ℚ)) :
    ∀ (seeds population : List (List ℚ)) (i j : Nat), j < i →
    (overwriteFrom bounds population seeds i)[j]? = population[j]?
  | [], population, i, j, _ => rfl
  | s :: rest, population, i, j, hj => by
      rw [overwriteFrom, overwriteFrom_get_lt bounds rest _ (i + 1) j
        (Nat.lt_succ_of_lt hj)]
      exact List.getElem?_set_ne (Nat.ne_of_gt hj)

theorem overwriteFrom_get (bounds : List (ℚ × ℚ)) :
    ∀ (seeds population : List (List ℚ)) (i j : Nat) (s : List ℚ),
    seeds[j]? = some s → i + seeds.length ≤ population.length →
    (overwriteFrom bounds population seeds i)[i + j]? =
      some (clampIndividual bounds s)
  | [], population, i, j, s, hs, _ => by simp at hs
  | s0 :: rest, population, i, 0, s, hs, hle => by
      simp only [List.getElem?_cons_zero, Option.some_inj] at hs
      subst hs
      have hi : i < population.length := by
        simp only [List.length_cons] at hle
        omega
      simp only [overwriteFrom, Nat.add_zero]
      rw [overwriteFrom_get_lt bounds rest _ (i + 1) i (Nat.lt_succ_self i),
        List.getElem?_set_self hi]
  | s0 :: rest, population, i, j + 1, s, hs, hle => by
      simp only [List.getElem?_cons_succ] at hs
      have harith : i + (j + 1) = (i + 1) + j := by omega
      rw [overwriteFrom, harith,
        overwriteFrom_get bounds rest _ (i + 1) j s hs
          (by simp only [List.length_cons] at hle; rw [List.length_set]; omega)]

/-- C7: when the deduplicated seeds outnumber the configured population
size, the population size is raised to exactly the seed count before the
initial population is drawn, and the first `N` individuals of the initial
population are exactly the `N` seeds with every value clamped into its
dimension's bounds. -/
theorem setupPopulation_grows_and_contains_seeds
    (randomPopulation : Nat → List (List ℚ)) (bounds : List (ℚ × ℚ))
    (population_size : Nat) (starting_individuals : List (List ℚ))
    (hrand : ∀ n, (randomPopulation n).length = n)
    (hgt : starting_individuals.length > population_size) :
    (setupPopulation randomPopulation bounds population_size
      starting_individuals).1 = starting_individuals.length ∧
    (setupPopulation randomPopulation bounds population_size
      starting_individuals).2.length = starting_individuals.length ∧
    ∀ (j : Nat) (s : List ℚ), starting_individuals[j]? = some s →
      (setupPopulation randomPopulation bounds population_size
        starting_individuals).2[j]? = some (clampIndividual bounds s) := by
  have hnonempty : starting_individuals.isEmpty = false := by
    cases starting_individuals with
    | nil => simp at hgt
    | cons a l => rfl
  have hsize : (if starting_individuals.length > population_size then
      starting_individuals.length else population_size) =
      starting_individuals.length := if_pos hgt
  refine ⟨?_, ?_, ?_⟩
  · simp [setupPopulation, hgt]
  · simp [setupPopulation, hgt, hnonempty, overwriteFrom_length, hrand]
  · intro j s hs
    have h0 := overwriteFrom_get bounds starting_individuals
      (randomPopulation starting_individuals.length) 0 j s hs
      (by rw [hrand]; omega)
    simp only [setupPopulation, hgt, if_pos, hnonempty, Bool.false_eq_true,
      if_false]
    simpa using h0

/-- Deterministic random-population stand-in for the witness. -/
def randomPopulationEx : Nat → List (List ℚ) := fun n => List.replicate n []

theorem setupPopulation_grows_and_contains_seeds_witness :
    (setupPopulation randomPopulationEx [(0, 1)] 1 [[5], [-1]]).1 = 2 ∧
    (setupPopulation randomPopulationEx [(0, 1)] 1 [[5], [-1]]).2[0]? =
      some (clampIndividual [(0, 1)] [5]) ∧
    (setupPopulation randomPopulationEx [(0, 1)] 1 [[5], [-1]]).2[1]? =
      some (clampIndividual [(0, 1)] [-1]) := by
  have h := setupPopulation_grows_and_contains_seeds randomPopulationEx
    [(0, 1)] 1 [[5], [-1]]
    (fun n => by simp [randomPopulationEx]) (by norm_num)
  exact ⟨h.1, h.2.2 0 [5] rfl, h.2.2 1 [-1] rfl⟩

/-! ### Generation budget (`main` / `eaMuPlusLambda`)

DEAP's `algorithms.eaMuPlusLambda` is external to the repository. -/

/-- Modelled from the spec: the external `eaMuPlusLambda` driver runs exactly
`ngen` generation transitions (selection, variation, evaluation, survivor
selection), abstracted as iterating an arbitrary one-generation step; the
pair returned is the final population together with the number of
generation transitions performed. -/
def eaMuPlusLambda (step : List (List ℚ) → List (List ℚ))
    (population : List (List ℚ)) (ngen : Nat) : List (List ℚ) × Nat :=
  (step^[ngen] population, ngen)

/-- The optimizer invocation in `main`:
`ngen=max(1, int(config["optimize"]["iters"] / len(population)))`
(Python `int()` of the quotient truncates, i.e. floor on non-negative
values). -/
def runOptimization (step : List (List ℚ) → List (List ℚ))
    (iters : Nat) (population : List (List ℚ)) : List (List ℚ) × Nat :=
  eaMuPlusLambda step population (max 1 (iters / population.length))

/-- C5 counterexample: with an iteration budget of 3 and a population of
size 2, the loop runs `max(1, floor(3/2)) = 1` generation, not
`ceil(3/2) = 2` as the claim states. -/
theorem generation_count_counterexample :
    (runOptimization id 3 [[0], [1]]).2 = 1 ∧ (3 + 2 - 1) / 2 = 2 ∧
    (runOptimization id 3 [[0], [1]]).2 ≠ (3 + 2 - 1) / 2 := by
  refine ⟨rfl, rfl, ?_⟩
  intro h
  simp [runOptimization, eaMuPlusLambda] at h

/-- C5 amended: the loop runs for exactly `max(1, floor(iters /
population_size))` generations (not `ceil`), a budget fixed up front by the
iteration budget and the initial population size alone — the same for any
generation step and any population contents of that size, hence not
adapted during the run. -/
theorem generation_count_fixed (step step2 : List (List ℚ) → List (List ℚ))
    (iters : Nat) (pop pop2 : List (List ℚ))
    (_hpos : 0 < pop.length) (hlen : pop2.length = pop.length) :
    (runOptimization step iters pop).2 = max 1 (iters / pop.length) ∧
    (runOptimization step iters pop).2 = (runOptimization step2 iters pop2).2 := by
  exact ⟨rfl, by simp [runOptimization, eaMuPlusLambda, hlen]⟩

theorem generation_count_fixed_witness :
    (runOptimization id 7 [[0], [1]]).2 = max 1 (7 / 2) ∧
    (runOptimization id 7 [[0], [1]]).2 =
      (runOptimization (fun p => p ++ p) 7 [[3], [4]]).2 := by
  have h := generation_count_fixed id (fun p => p ++ p) 7 [[0], [1]] [[3], [4]]
    (by norm_num) rfl
  exact h

/-! ### Shared-memory lifecycle (`Evaluator.__init__`, `Evaluator.cleanup`,
the `try`/`except Exception`/`finally` of `main`)

The lifecycle is modelled as the trace of shared-memory events a run emits.
`Evaluator.__init__` allocates the history segment, then the
preferred-coins segment, then derives backtest parameters; any of these can
raise.  The body of `main`'s `try` block after construction can finish
normally, raise an error (caught by `except Exception`), or be interrupted
(the `SIGINT` handler raises `SystemExit`, which skips `except Exception`
but still runs `finally`).  The `finally` block evaluates
`evaluator.cleanup()`: when `Evaluator(...)` raised, the local name
`evaluator` was never bound, so the lookup itself raises and no release
event is emitted. -/

/-- Observable shared-memory events of a run. -/
inductive SMEvent
  | allocHist
  | allocPref
  | closeHist
  | unlinkHist
  | closePref
  | unlinkPref
deriving DecidableEq

/-- How far `Evaluator.__init__` gets: success, failure before any
allocation, failure between the two allocations (the second
`SharedMemory(create=True, ...)` raises), or failure after both allocations
(e.g. `prep_backtest_args` raises). -/
inductive InitOutcome
  | ok
  | failNoAlloc
  | failAfterHist
  | failAfterBoth
deriving DecidableEq

/-- How the rest of `main`'s `try` body ends once the evaluator exists. -/
inductive BodyOutcome
  | normal
  | raisedError
  | interrupted
deriving DecidableEq

/-- Allocation events emitted by `Evaluator.__init__`. -/
def initEvents : InitOutcome → List SMEvent
  | InitOutcome.ok => [SMEvent.allocHist, SMEvent.allocPref]
  | InitOutcome.failNoAlloc => []
  | InitOutcome.failAfterHist => [SMEvent.allocHist]
  | InitOutcome.failAfterBoth => [SMEvent.allocHist, SMEvent.allocPref]

/-- Release events emitted by one call of `Evaluator.cleanup`. -/
def cleanupEvents : List SMEvent :=
  [SMEvent.closeHist, SMEvent.unlinkHist, SMEvent.closePref, SMEvent.unlinkPref]

/-- The shared-memory event trace of one run of `main`: the `try` body emits
the constructor's allocation events (the later body outcome allocates
nothing); `except Exception` swallows a body error; `finally` runs
`evaluator.cleanup()` exactly once — unless construction failed, in which
case the name `evaluator` is unbound and no release happens. -/
def mainRunEvents (init : InitOutcome) (_body : BodyOutcome) : List SMEvent :=
  initEvents init ++
    (if init = InitOutcome.ok then cleanupEvents else [])

/-- C6 evaluated at the failing input: when `Evaluator.__init__` raises
after its allocations (body outcome irrelevant: the body never ran), the
run allocates the history segment once but never closes or unlinks either
segment — the segments leak, contradicting release-exactly-once; whereas
for every body outcome of a run whose construction succeeded, each segment
is closed and unlinked exactly once. -/
theorem sharedMemory_leak_on_init_failure :
    ((mainRunEvents InitOutcome.failAfterBoth BodyOutcome.raisedError).count
        SMEvent.allocHist = 1 ∧
      (mainRunEvents InitOutcome.failAfterBoth BodyOutcome.raisedError).count
        SMEvent.allocPref = 1 ∧
      (mainRunEvents InitOutcome.failAfterBoth BodyOutcome.raisedError).count
        SMEvent.unlinkHist = 0 ∧
      (mainRunEvents InitOutcome.failAfterBoth BodyOutcome.raisedError).count
        SMEvent.unlinkPref = 0 ∧
      (mainRunEvents InitOutcome.failAfterBoth BodyOutcome.raisedError).count
        SMEvent.closeHist = 0) ∧
    ((mainRunEvents InitOutcome.ok BodyOutcome.normal).count SMEvent.unlinkHist = 1 ∧
      (mainRunEvents InitOutcome.ok BodyOutcome.raisedError).count
        SMEvent.unlinkHist = 1 ∧
      (mainRunEvents InitOutcome.ok BodyOutcome.interrupted).count
        SMEvent.unlinkHist = 1 ∧
      (mainRunEvents InitOutcome.ok BodyOutcome.normal).count SMEvent.unlinkPref = 1 ∧
      (mainRunEvents InitOutcome.ok BodyOutcome.raisedError).count
        SMEvent.unlinkPref = 1 ∧
      (mainRunEvents InitOutcome.ok BodyOutcome.interrupted).count
        SMEvent.unlinkPref = 1 ∧
      (mainRunEvents InitOutcome.ok BodyOutcome.normal).count SMEvent.closeHist = 1 ∧
      (mainRunEvents InitOutcome.ok BodyOutcome.normal).count SMEvent.closePref = 1) := by
  decide

end Passivbot
